import Mathlib

/-!
Shallow embedding of the `ipjdb` document store (src/lib.rs, src/lock.rs,
src/error.rs) and proofs about its collection engine.

Modelling conventions:
* File contents and file names are byte lists (`List Nat`).
* A collection directory is a list of `Entry` values in enumeration order;
  `openOk` models whether `fs::File::open` on that entry succeeds.
* The serde collaborator is a pair of parameters `dec : List Nat → Option T`
  (decode, `None` = decode error) and `enc : T → List Nat` (encode).
* Rust panics (`expect`/`unwrap`) are modelled by the `Outcome.panicked`
  constructor; `Result<_, DbError>` by `Outcome.ok` / `Outcome.err`.
* Advisory-lock acquisition and release inside collection operations are a
  concurrency mechanism with no effect on the sequential result values, so
  the collection operations are modelled lock-free; the `FileLock` type
  itself is modelled separately as a state machine whose OS unlock call may
  succeed or fail (the `osOk` parameter).
* `thread_rng` is modelled by an explicit draw stream `draw : Nat → Fin 16`
  indexing into the hex alphabet, and the unbounded retry loop of `gen_id`
  by explicit fuel (`none` = the loop has not terminated within the fuel).
-/

namespace Ipjdb

/-- Mirrors `DbError` from src/error.rs (payloads of the IO and JSON
variants are irrelevant to control flow and dropped). -/
inductive DbError : Type
  | invalidId
  | ioError
  | jsonError
deriving DecidableEq, Repr

/-- Result of a collection operation: `Result<α, DbError>` plus the panic
outcome of `expect`. -/
inductive Outcome (α : Type) : Type
  | ok (a : α)
  | err (e : DbError)
  | panicked
deriving DecidableEq, Repr

namespace Outcome

def map {α β : Type} (g : α → β) : Outcome α → Outcome β
  | .ok a => .ok (g a)
  | .err e => .err e
  | .panicked => .panicked

end Outcome

/-- One step of the UTF-8 validation automaton used by
`std::str::from_utf8`.  The state is `none` (already invalid) or
`some (k, lo, hi)`: `k` continuation bytes still expected, the next one
constrained to `[lo, hi]` (the per-sequence first-continuation ranges
reject overlong encodings and surrogates). -/
def utf8Step (st : Option (Nat × Nat × Nat)) (b : Nat) : Option (Nat × Nat × Nat) :=
  match st with
  | none => none
  | some (0, _, _) =>
    if b ≤ 0x7F then some (0, 0x80, 0xBF)
    else if 0xC2 ≤ b && b ≤ 0xDF then some (1, 0x80, 0xBF)
    else if b = 0xE0 then some (2, 0xA0, 0xBF)
    else if (0xE1 ≤ b && b ≤ 0xEC) || b = 0xEE || b = 0xEF then some (2, 0x80, 0xBF)
    else if b = 0xED then some (2, 0x80, 0x9F)
    else if b = 0xF0 then some (3, 0x90, 0xBF)
    else if 0xF1 ≤ b && b ≤ 0xF3 then some (3, 0x80, 0xBF)
    else if b = 0xF4 then some (3, 0x80, 0x8F)
    else none
  | some (k + 1, lo, hi) =>
    if lo ≤ b && b ≤ hi then some (k, 0x80, 0xBF) else none

/-- UTF-8 validity of a byte sequence, mirroring `std::str::from_utf8`:
run the automaton over the bytes and require that it ends in a complete
sequence. -/
def isValidUtf8 (l : List Nat) : Bool :=
  match l.foldl utf8Step (some (0, 0x80, 0xBF)) with
  | some (0, _, _) => true
  | _ => false

/-- Constant `ID_SIZE` from src/lib.rs. -/
def idSize : Nat := 16

/-- Identifier `Id`: 16 raw bytes.  Modelled as the byte list held in the array. -/
abbrev Id := List Nat

namespace Id

/-- Function `Id::from_str` (src/lib.rs): the argument is the byte content of a
Rust `&str` (hence always valid UTF-8 at call sites); only the length is
checked, and the bytes are copied verbatim. -/
def from_str (s : List Nat) : Except DbError Id :=
  if s.length = idSize then .ok s else .error .invalidId

/-- Function `Id::to_str` (src/lib.rs): succeeds iff the stored bytes are valid
UTF-8, returning a view of the same bytes. -/
def to_str (i : Id) : Except DbError (List Nat) :=
  if isValidUtf8 i then .ok i else .error .invalidId

end Id

/-- Structure `Item<T>` from src/lib.rs. -/
structure Item (T : Type) : Type where
  id : Id
  data : T
deriving DecidableEq, Repr

/-- One directory entry: the file's name bytes, whether opening it for
reading succeeds, and its content bytes. -/
structure Entry : Type where
  name : List Nat
  openOk : Bool
  content : List Nat
deriving DecidableEq, Repr

/-- A collection directory in enumeration order. -/
abbrev Dir := List Entry

/-- Open the file named `n` for reading: `fs::File::open` fails (IO error)
if no such entry exists or the entry is unreadable. -/
def openFile : Dir → List Nat → Outcome (List Nat)
  | [], _ => .err .ioError
  | e :: rest, n =>
    if e.name = n then (if e.openOk then .ok e.content else .err .ioError)
    else openFile rest n

/-- Model of `fs::File::create` + write: create-or-truncate the file named `n` with
content `c` (replace the entry if present, append it otherwise). -/
def writeFile : Dir → List Nat → List Nat → Dir
  | [], n, c => [⟨n, true, c⟩]
  | e :: rest, n, c =>
    if e.name = n then ⟨n, true, c⟩ :: rest else e :: writeFile rest n c

/-- Method `Collection::find_many` (src/lib.rs): enumerate entries; panic if a
file name is not Unicode; abort on identifier-parse failure; abort on
open failure; skip the entry on decode failure; keep decoded items that
satisfy `f`. -/
def find_many {T : Type} (dec : List Nat → Option T) (f : Item T → Bool) :
    Dir → Outcome (List (Item T))
  | [] => .ok []
  | e :: rest =>
    if isValidUtf8 e.name then
      match Id.from_str e.name with
      | .error er => .err er
      | .ok i =>
        if e.openOk then
          match dec e.content with
          | some v =>
            if f ⟨i, v⟩ then
              Outcome.map (fun l => ⟨i, v⟩ :: l) (find_many dec f rest)
            else find_many dec f rest
          | none => find_many dec f rest
        else .err .ioError
    else .panicked

/-- Method `Collection::get_all` (src/lib.rs): `find_many` with the always-true
predicate. -/
def get_all {T : Type} (dec : List Nat → Option T) : Dir → Outcome (List (Item T)) :=
  find_many dec (fun _ => true)

/-- Method `Collection::get_one` (src/lib.rs): resolve the path via `to_str`,
open, decode. -/
def get_one {T : Type} (dec : List Nat → Option T) (i : Id) (dir : Dir) :
    Outcome (Item T) :=
  match Id.to_str i with
  | .error er => .err er
  | .ok s =>
    match openFile dir s with
    | .ok bytes =>
      match dec bytes with
      | some v => .ok ⟨i, v⟩
      | none => .err .jsonError
    | .err er => .err er
    | .panicked => .panicked

/-- The byte alphabet `b"0123456789abcdef"` used by `gen_id`. -/
def hexBytes : List Nat :=
  [48, 49, 50, 51, 52, 53, 54, 55, 56, 57, 97, 98, 99, 100, 101, 102]

/-- One candidate identifier: 16 independent draws from the hex alphabet
(`chars.choose(&mut rng).unwrap()` per position), reading the draw stream
starting at offset `16 * k`. -/
def mkCandidate (draw : Nat → Fin 16) (k : Nat) : Id :=
  (List.range idSize).map (fun i => hexBytes.getD (draw (idSize * k + i)).val 48)

/-- Method `Collection::gen_id` (src/lib.rs): draw candidates until one names no
existing file; the unbounded loop is modelled with explicit fuel. -/
def gen_id (draw : Nat → Fin 16) (dir : Dir) : Nat → Nat → Option Id
  | 0, _ => none
  | fuel + 1, k =>
    let cand := mkCandidate draw k
    if dir.any (fun e => e.name = cand) then gen_id draw dir fuel (k + 1)
    else some cand

/-- Method `Collection::insert_one` (src/lib.rs): generate a fresh identifier,
resolve its path, create the file and encode the payload into it.
`none` models the generation loop not terminating within the fuel. -/
def insert_one {T : Type} (enc : T → List Nat) (draw : Nat → Fin 16) (fuel : Nat)
    (data : T) (dir : Dir) : Option (Outcome (Id × Dir)) :=
  match gen_id draw dir fuel 0 with
  | none => none
  | some i =>
    match Id.to_str i with
    | .error er => some (.err er)
    | .ok s => some (.ok (i, writeFile dir s (enc data)))

/-- Method `Collection::replace_one` (src/lib.rs): resolve the path, then
create-or-truncate the file and encode the payload into it. -/
def replace_one {T : Type} (enc : T → List Nat) (item : Item T) (dir : Dir) :
    Outcome Dir :=
  match Id.to_str item.id with
  | .error er => .err er
  | .ok s => .ok (writeFile dir s (enc item.data))

/-- Method `Collection::update_by_id` (src/lib.rs): resolve the path, open and
decode, apply the mutator, then rewrite the same path with the encoding of
the mutated item's `data` field only (the id field is never written). -/
def update_by_id {T : Type} (dec : List Nat → Option T) (enc : T → List Nat)
    (i : Id) (u : Item T → Item T) (dir : Dir) : Outcome Dir :=
  match Id.to_str i with
  | .error er => .err er
  | .ok s =>
    match openFile dir s with
    | .ok bytes =>
      match dec bytes with
      | some v => .ok (writeFile dir s (enc (u ⟨i, v⟩).data))
      | none => .err .jsonError
    | .err er => .err er
    | .panicked => .panicked

/-- Method `Collection::update_many` (src/lib.rs): enumerate entries; panic on a
non-Unicode name; abort on parse, open or decode failure (leaving the
failing entry and everything after it untouched, with no rollback of
earlier rewrites); rewrite in place each decodable entry satisfying `f`.
Returns the call's outcome together with the final directory state. -/
def update_many {T : Type} (dec : List Nat → Option T) (enc : T → List Nat)
    (f : Item T → Bool) (u : Item T → Item T) : Dir → Outcome Unit × Dir
  | [] => (.ok (), [])
  | e :: rest =>
    if isValidUtf8 e.name then
      match Id.from_str e.name with
      | .error er => (.err er, e :: rest)
      | .ok i =>
        if e.openOk then
          match dec e.content with
          | some v =>
            let e2 := if f ⟨i, v⟩ then { e with content := enc (u ⟨i, v⟩).data } else e
            let step := update_many dec enc f u rest
            (step.1, e2 :: step.2)
          | none => (.err .jsonError, e :: rest)
        else (.err .ioError, e :: rest)
    else (.panicked, e :: rest)

/-- Structure `FileLock` from src/lock.rs: only the `is_locked` flag matters to the
release protocol. -/
structure FileLock : Type where
  is_locked : Bool
deriving DecidableEq, Repr

/-- What the `Drop` fallback did. -/
inductive DropOutcome : Type
  | noop
  | released
  | fatal
deriving DecidableEq, Repr

namespace FileLock

/-- Method `FileLock::unlock` (src/lock.rs): call the OS unlock (`osOk` tells
whether it succeeds); only on success is `is_locked` cleared. -/
def unlock (l : FileLock) (osOk : Bool) : Except Unit Unit × FileLock :=
  if osOk then (.ok (), { is_locked := false }) else (.error (), l)

/-- Model of `impl Drop for FileLock` (src/lock.rs): if still marked held, call
`unlock` and `expect` (panic) on failure; otherwise do nothing. -/
def dropGuard (l : FileLock) (osOk : Bool) : DropOutcome :=
  if l.is_locked then
    match (l.unlock osOk).1 with
    | .ok _ => .released
    | .error _ => .fatal
  else .noop

end FileLock

/-! Derived per-entry predicates used to state the theorems. -/

/-- An entry passes the per-entry checks shared by the enumeration loops:
Unicode name, name parses as an identifier (length 16), file opens. -/
def passEntry (e : Entry) : Bool :=
  isValidUtf8 e.name && (e.name.length == idSize) && e.openOk

/-- An entry whose content decodes and whose decoded item satisfies `f`. -/
def matchesEntry {T : Type} (dec : List Nat → Option T) (f : Item T → Bool)
    (e : Entry) : Bool :=
  match dec e.content with
  | some v => f ⟨e.name, v⟩
  | none => false

/-- An entry whose content decodes. -/
def decodes {T : Type} (dec : List Nat → Option T) (e : Entry) : Bool :=
  (dec e.content).isSome

/-- What one `update_many` iteration does to an entry that passes all
checks: rewrite it with the encoded mutated data if the predicate holds,
leave it alone otherwise. -/
def updStep {T : Type} (dec : List Nat → Option T) (enc : T → List Nat)
    (f : Item T → Bool) (u : Item T → Item T) (e : Entry) : Entry :=
  match dec e.content with
  | some v => if f ⟨e.name, v⟩ then { e with content := enc (u ⟨e.name, v⟩).data } else e
  | none => e

/-- The item a passing entry contributes to a query result, if its
content decodes. -/
def itemOf {T : Type} (dec : List Nat → Option T) (e : Entry) : Option (Item T) :=
  (dec e.content).map (fun v => ⟨e.name, v⟩)

/-! Concrete sample data for witnesses and counterexamples. -/

/-- Sample decoder: a single byte is the payload. -/
def decNat : List Nat → Option Nat
  | [n] => some n
  | _ => none

/-- Sample encoder, inverse of `decNat` on single bytes. -/
def encRt : Nat → List Nat := fun n => [n]

/-- Sample always-true predicate. -/
def predTrue : Item Nat → Bool := fun _ => true

/-- Sample mutator: increment the payload (and leave the id alone). -/
def mutIncr : Item Nat → Item Nat := fun it => ⟨it.id, it.data + 1⟩

/-- A valid 16-byte name (`"0000000000000000"`). -/
def nameA : List Nat := List.replicate idSize 48

/-- Another valid 16-byte name (`"aaaaaaaaaaaaaaaa"`). -/
def nameB : List Nat := List.replicate idSize 97

/-- A 17-byte ASCII name: valid Unicode but fails identifier parsing. -/
def name17 : List Nat := List.replicate 17 97

/-- A 16-byte name that is not valid Unicode (starts with byte 0xFF). -/
def nameBin : List Nat := 255 :: List.replicate 15 48

/-- Constant draw stream for the identifier generator. -/
def draw0 : Nat → Fin 16 := fun _ => 0

/-! ### C3: parse / to_text round trip -/

/-- C3 counterexample: the claim is false — there is no caller-suppliable
16-byte text (the argument of `Id::from_str` is a Rust `&str`, hence valid
UTF-8) that parses to an `Id` on which `to_str` then fails: `from_str`
copies the input bytes verbatim, and valid UTF-8 bytes always convert
back. -/
theorem c3_no_roundtrip_failure :
    ¬ ∃ s : List Nat, isValidUtf8 s = true ∧ s.length = idSize ∧
      ∃ i, Id.from_str s = .ok i ∧ ∃ er, Id.to_str i = .error er := by
  rintro ⟨s, hv, hl, i, hp, er, ht⟩
  rw [Id.from_str, if_pos hl] at hp
  cases hp
  rw [Id.to_str, if_pos hv] at ht
  cases ht

/-- C3 (amended): `parse` accepts any 16-byte text, hexadecimal or not,
and the resulting identifier always round-trips: `to_text` succeeds and
returns the same bytes. -/
theorem c3_parse_roundtrip (s : List Nat) (hv : isValidUtf8 s = true)
    (hl : s.length = idSize) :
    Id.from_str s = .ok s ∧ Id.to_str s = .ok s := by
  constructor
  · rw [Id.from_str, if_pos hl]
  · rw [Id.to_str, if_pos hv]

/-- C3 witness: the non-hex 16-byte text `"zzzzzzzzzzzzzzzz"` parses and
round-trips. -/
theorem c3_parse_roundtrip_witness :
    Id.from_str (List.replicate 16 122) = .ok (List.replicate 16 122) ∧
      Id.to_str (List.replicate 16 122) = .ok (List.replicate 16 122) :=
  c3_parse_roundtrip (List.replicate 16 122) (by decide) (by decide)

/-! ### C8: lock release protocol -/

/-- C8: a `FileLock` dropped while still marked held releases the lock; a
release failure on that path is a panic (never absorbed); after a
successful explicit `unlock` the scoped fallback performs no second
release. -/
theorem c8_lock_release_discipline :
    (∀ l : FileLock, l.is_locked = true → l.dropGuard true = .released) ∧
    (∀ l : FileLock, l.is_locked = true → l.dropGuard false = .fatal) ∧
    (∀ (l l2 : FileLock) (r : Except Unit Unit) (osOk : Bool),
      l.unlock true = (r, l2) → l2.dropGuard osOk = .noop) := by
  refine ⟨fun l h => ?_, fun l h => ?_, fun l l2 r osOk h => ?_⟩
  · simp [FileLock.dropGuard, FileLock.unlock, h]
  · simp [FileLock.dropGuard, FileLock.unlock, h]
  · rw [FileLock.unlock, if_pos rfl] at h
    cases h
    simp [FileLock.dropGuard]

/-- C8 witness: a held lock at both OS outcomes, and the
explicit-release-then-scope-exit sequence. -/
theorem c8_lock_release_discipline_witness :
    FileLock.dropGuard ⟨true⟩ true = .released ∧
      FileLock.dropGuard ⟨true⟩ false = .fatal ∧
      FileLock.dropGuard ⟨false⟩ true = .noop :=
  ⟨c8_lock_release_discipline.1 ⟨true⟩ rfl,
   c8_lock_release_discipline.2.1 ⟨true⟩ rfl,
   c8_lock_release_discipline.2.2 ⟨true⟩ ⟨false⟩ (.ok ()) true rfl⟩

/-! ### C1, C2, C10: counterexamples -/

/-- C1 counterexample: with two well-named entries — the first valid and
matching the predicate, the second with undecodable content — `update_many`
fails with a decode error, yet the first file's bytes have changed: the
abort does not give zero mutations in every enumeration order. -/
theorem c1_mutation_before_abort :
    (update_many decNat encRt predTrue mutIncr
        [⟨nameA, true, [5]⟩, ⟨nameB, true, []⟩]).1 = .err .jsonError ∧
      (update_many decNat encRt predTrue mutIncr
        [⟨nameA, true, [5]⟩, ⟨nameB, true, []⟩]).2 =
        [⟨nameA, true, [6]⟩, ⟨nameB, true, []⟩] := by
  constructor <;> decide

/-- C2 counterexample: a single entry with a well-formed name whose file
fails to open makes `find_many` fail with an IO error instead of being
skipped silently (the claim predicts the call succeeds with the entry
excluded). -/
theorem c2_open_failure_aborts :
    find_many decNat predTrue [⟨nameA, false, [5]⟩] = .err .ioError := by
  decide

/-- C10 counterexample: a directory that does contain a non-Unicode-named
entry, but preceded by an entry whose (Unicode) name fails identifier
parsing: all three enumeration operations return an error value instead of
panicking. -/
theorem c10_error_shadows_name_panic :
    find_many decNat predTrue
        [⟨name17, true, []⟩, ⟨nameBin, true, []⟩] = .err .invalidId ∧
      get_all decNat [⟨name17, true, []⟩, ⟨nameBin, true, []⟩] =
        (.err .invalidId : Outcome (List (Item Nat))) ∧
      (update_many decNat encRt predTrue mutIncr
        [⟨name17, true, []⟩, ⟨nameBin, true, []⟩]).1 = .err .invalidId := by
  refine ⟨?_, ?_, ?_⟩ <;> decide

/-! ### File-level helper lemmas -/

theorem writeFile_getElem? (dir : Dir) (n c : List Nat) :
    ∀ (j : Nat) (e e2 : Entry), dir[j]? = some e →
      (writeFile dir n c)[j]? = some e2 →
      e2.name = e.name ∧ (e.name ≠ n → e2 = e) := by
  induction dir with
  | nil => intro j e e2 h1 _; simp at h1
  | cons a rest ih =>
    intro j e e2 h1 h2
    rw [writeFile] at h2
    by_cases ha : a.name = n
    · rw [if_pos ha] at h2
      match j with
      | 0 =>
        simp only [List.getElem?_cons_zero, Option.some.injEq] at h1 h2
        subst h1; subst h2
        exact ⟨ha.symm, fun hne => absurd ha hne⟩
      | j + 1 =>
        simp only [List.getElem?_cons_succ] at h1 h2
        rw [h1] at h2
        cases h2
        exact ⟨rfl, fun _ => rfl⟩
    · rw [if_neg ha] at h2
      match j with
      | 0 =>
        simp only [List.getElem?_cons_zero, Option.some.injEq] at h1 h2
        subst h1; subst h2
        exact ⟨rfl, fun _ => rfl⟩
      | j + 1 =>
        simp only [List.getElem?_cons_succ] at h1 h2
        exact ih j e e2 h1 h2

theorem length_writeFile (dir : Dir) (n c b : List Nat)
    (h : openFile dir n = .ok b) : (writeFile dir n c).length = dir.length := by
  induction dir with
  | nil => simp [openFile] at h
  | cons a rest ih =>
    rw [openFile] at h
    rw [writeFile]
    by_cases ha : a.name = n
    · rw [if_pos ha]; simp
    · rw [if_neg ha] at h ⊢
      simp only [List.length_cons]
      rw [ih h]

theorem openFile_writeFile_of_ok (dir : Dir) (n b c : List Nat)
    (h : openFile dir n = .ok b) :
    openFile (writeFile dir n c) n = .ok c := by
  induction dir with
  | nil => simp [openFile] at h
  | cons a rest ih =>
    rw [openFile] at h
    rw [writeFile]
    by_cases ha : a.name = n
    · rw [if_pos ha]
      rw [openFile, if_pos rfl, if_pos rfl]
    · rw [if_neg ha] at h
      rw [if_neg ha, openFile, if_neg ha]
      exact ih h

theorem openFile_writeFile_fresh (dir : Dir) (n c : List Nat)
    (h : ∀ e ∈ dir, e.name ≠ n) :
    openFile (writeFile dir n c) n = .ok c := by
  induction dir with
  | nil => rw [writeFile, openFile, if_pos rfl, if_pos rfl]
  | cons a rest ih =>
    have ha : a.name ≠ n := h a (List.mem_cons_self a rest)
    rw [writeFile, if_neg ha, openFile, if_neg ha]
    exact ih (fun e he => h e (List.mem_cons_of_mem a he))

/-! ### C5: update_by_id isolation -/

/-- C5: a successful `update_by_id id u` rewrites only the file at
`path(id)`: lengths and file names are preserved, every entry whose name
is not `id` is byte-for-byte unchanged, the file at `id` now holds the
encoding of the mutated item's `data` field only, and the result does not
depend on what the mutator does to the item's `id` field. -/
theorem c5_update_isolation {T : Type} (dec : List Nat → Option T)
    (enc : T → List Nat) (i : Id) (u : Item T → Item T) (dir dir2 : Dir)
    (h : update_by_id dec enc i u dir = .ok dir2) :
    dir2.length = dir.length ∧
    (∀ (j : Nat) (e e2 : Entry), dir[j]? = some e → dir2[j]? = some e2 →
      e2.name = e.name ∧ (e.name ≠ i → e2 = e)) ∧
    (∃ b v, openFile dir i = .ok b ∧ dec b = some v ∧
      openFile dir2 i = .ok (enc (u ⟨i, v⟩).data)) ∧
    (∀ u2 : Item T → Item T, (∀ it, (u2 it).data = (u it).data) →
      update_by_id dec enc i u2 dir = .ok dir2) := by
  unfold update_by_id at h
  by_cases hv : isValidUtf8 i
  case neg => rw [Id.to_str, if_neg hv] at h; simp at h
  rw [Id.to_str, if_pos hv] at h
  simp only at h
  cases hopen : openFile dir i with
  | err er => simp [hopen] at h
  | panicked => simp [hopen] at h
  | ok b =>
    cases hdec : dec b with
    | none => simp [hopen, hdec] at h
    | some v =>
      simp only [hopen, hdec, Outcome.ok.injEq] at h
      subst h
      refine ⟨length_writeFile dir i _ b hopen,
        writeFile_getElem? dir i _, ⟨b, v, rfl, hdec,
          openFile_writeFile_of_ok dir i b _ hopen⟩, fun u2 hu2 => ?_⟩
      unfold update_by_id
      rw [Id.to_str, if_pos hv]
      simp only [hopen, hdec, hu2]

/-- C5 witness: a two-document collection updated at the first id. -/
theorem c5_update_isolation_witness :
    ([(⟨nameA, true, [6]⟩ : Entry), ⟨nameB, true, [7]⟩] : Dir).length =
        ([(⟨nameA, true, [5]⟩ : Entry), ⟨nameB, true, [7]⟩] : Dir).length ∧
      (∀ (j : Nat) (e e2 : Entry),
        ([(⟨nameA, true, [5]⟩ : Entry), ⟨nameB, true, [7]⟩] : Dir)[j]? = some e →
        ([(⟨nameA, true, [6]⟩ : Entry), ⟨nameB, true, [7]⟩] : Dir)[j]? = some e2 →
        e2.name = e.name ∧ (e.name ≠ nameA → e2 = e)) ∧
      (∃ b v, openFile [⟨nameA, true, [5]⟩, ⟨nameB, true, [7]⟩] nameA = .ok b ∧
        decNat b = some v ∧
        openFile [⟨nameA, true, [6]⟩, ⟨nameB, true, [7]⟩] nameA =
          .ok (encRt (mutIncr ⟨nameA, v⟩).data)) ∧
      (∀ u2 : Item Nat → Item Nat, (∀ it, (u2 it).data = (mutIncr it).data) →
        update_by_id decNat encRt nameA u2 [⟨nameA, true, [5]⟩, ⟨nameB, true, [7]⟩] =
          .ok [⟨nameA, true, [6]⟩, ⟨nameB, true, [7]⟩]) :=
  c5_update_isolation decNat encRt nameA mutIncr
    [⟨nameA, true, [5]⟩, ⟨nameB, true, [7]⟩]
    [⟨nameA, true, [6]⟩, ⟨nameB, true, [7]⟩] (by decide)

/-! ### C6: replace_one creates missing documents -/

/-- C6: with a valid-text identifier and no file at its path,
`replace_one` does not fail with not-found: it succeeds and the collection
afterwards contains a document at that id whose payload decodes back to
the one supplied. -/
theorem c6_replace_creates {T : Type} (dec : List Nat → Option T)
    (enc : T → List Nat) (item : Item T) (dir : Dir)
    (hv : isValidUtf8 item.id = true)
    (habs : ∀ e ∈ dir, e.name ≠ item.id)
    (hrt : dec (enc item.data) = some item.data) :
    replace_one enc item dir = .ok (writeFile dir item.id (enc item.data)) ∧
      get_one dec item.id (writeFile dir item.id (enc item.data)) =
        .ok ⟨item.id, item.data⟩ := by
  constructor
  · rw [replace_one, Id.to_str, if_pos hv]
  · rw [get_one, Id.to_str, if_pos hv]
    simp only [openFile_writeFile_fresh dir item.id (enc item.data) habs, hrt]

/-- C6 witness: replacing at a fresh id in a one-document collection. -/
theorem c6_replace_creates_witness :
    replace_one encRt (⟨nameA, 5⟩ : Item Nat) [⟨nameB, true, [7]⟩] =
        .ok (writeFile [⟨nameB, true, [7]⟩] nameA (encRt 5)) ∧
      get_one decNat nameA (writeFile [⟨nameB, true, [7]⟩] nameA (encRt 5)) =
        .ok ⟨nameA, 5⟩ :=
  c6_replace_creates decNat encRt ⟨nameA, 5⟩ [⟨nameB, true, [7]⟩]
    (by decide) (by decide) (by decide)

/-! ### Identifier-generation lemmas -/

theorem hexBytes_getD_mem : ∀ v : Fin 16, hexBytes.getD v.val 48 ∈ hexBytes := by
  decide

theorem hexBytes_ascii : ∀ c ∈ hexBytes, c ≤ 0x7F := by decide

theorem mkCandidate_length (draw : Nat → Fin 16) (k : Nat) :
    (mkCandidate draw k).length = idSize := by
  simp [mkCandidate]

theorem mkCandidate_mem_hex (draw : Nat → Fin 16) (k : Nat) :
    ∀ c ∈ mkCandidate draw k, c ∈ hexBytes := by
  intro c hc
  rw [mkCandidate, List.mem_map] at hc
  obtain ⟨i, _, rfl⟩ := hc
  exact hexBytes_getD_mem _

theorem ascii_foldl_utf8Step (l : List Nat) (h : ∀ c ∈ l, c ≤ 0x7F) :
    l.foldl utf8Step (some (0, 0x80, 0xBF)) = some (0, 0x80, 0xBF) := by
  induction l with
  | nil => rfl
  | cons b rest ih =>
    have hb : b ≤ 0x7F := h b (List.mem_cons_self b rest)
    rw [List.foldl_cons]
    have hstep : utf8Step (some (0, 0x80, 0xBF)) b = some (0, 0x80, 0xBF) := by
      simp only [utf8Step]
      rw [if_pos hb]
    rw [hstep]
    exact ih (fun c hc => h c (List.mem_cons_of_mem b hc))

theorem ascii_isValidUtf8 (l : List Nat) (h : ∀ c ∈ l, c ≤ 0x7F) :
    isValidUtf8 l = true := by
  unfold isValidUtf8
  rw [ascii_foldl_utf8Step l h]

theorem mkCandidate_isValidUtf8 (draw : Nat → Fin 16) (k : Nat) :
    isValidUtf8 (mkCandidate draw k) = true :=
  ascii_isValidUtf8 _ (fun c hc => hexBytes_ascii c (mkCandidate_mem_hex draw k c hc))

theorem gen_id_spec (draw : Nat → Fin 16) (dir : Dir) :
    ∀ (fuel k : Nat) (i : Id), gen_id draw dir fuel k = some i →
      (∃ m, i = mkCandidate draw m) ∧ ∀ e ∈ dir, e.name ≠ i := by
  intro fuel
  induction fuel with
  | zero => intro k i h; simp [gen_id] at h
  | succ fuel ih =>
    intro k i h
    rw [gen_id] at h
    by_cases hany : dir.any (fun e => e.name = mkCandidate draw k)
    · rw [if_pos hany] at h
      exact ih (k + 1) i h
    · rw [if_neg hany] at h
      cases h
      refine ⟨⟨k, rfl⟩, fun e he => ?_⟩
      simp only [List.any_eq_true, decide_eq_true_eq, not_exists, not_and] at hany
      exact fun hn => hany e he hn

theorem insert_one_spec {T : Type} (enc : T → List Nat) (draw : Nat → Fin 16)
    (fuel : Nat) (P : T) (dir : Dir) (i : Id) (dir2 : Dir)
    (h : insert_one enc draw fuel P dir = some (.ok (i, dir2))) :
    (∃ m, i = mkCandidate draw m) ∧ (∀ e ∈ dir, e.name ≠ i) ∧
      dir2 = writeFile dir i (enc P) := by
  unfold insert_one at h
  cases hg : gen_id draw dir fuel 0 with
  | none => rw [hg] at h; cases h
  | some j =>
    obtain ⟨⟨m, hm⟩, hfresh⟩ := gen_id_spec draw dir fuel 0 j hg
    have hv : isValidUtf8 j = true := hm ▸ mkCandidate_isValidUtf8 draw m
    rw [hg] at h
    simp only [Id.to_str, if_pos hv, Option.some.injEq, Outcome.ok.injEq,
      Prod.mk.injEq] at h
    obtain ⟨hji, hdir⟩ := h
    subst hji
    exact ⟨⟨m, hm⟩, hfresh, hdir.symm⟩

/-! ### C9: shape of inserted identifiers -/

/-- C9: any identifier returned by a successful `insert_one` has exactly
16 symbols, each from the alphabet `0-9a-f`, and `to_str` (hence path
resolution) succeeds on it. -/
theorem c9_insert_id_shape {T : Type} (enc : T → List Nat)
    (draw : Nat → Fin 16) (fuel : Nat) (P : T) (dir : Dir) (i : Id) (dir2 : Dir)
    (h : insert_one enc draw fuel P dir = some (.ok (i, dir2))) :
    i.length = idSize ∧ (∀ c ∈ i, c ∈ hexBytes) ∧ Id.to_str i = .ok i := by
  obtain ⟨⟨m, hm⟩, -, -⟩ := insert_one_spec enc draw fuel P dir i dir2 h
  subst hm
  refine ⟨mkCandidate_length draw m, mkCandidate_mem_hex draw m, ?_⟩
  rw [Id.to_str, if_pos (mkCandidate_isValidUtf8 draw m)]

/-- C9 witness: a concrete insertion into an empty collection. -/
theorem c9_insert_id_shape_witness :
    nameA.length = idSize ∧ (∀ c ∈ nameA, c ∈ hexBytes) ∧
      Id.to_str nameA = .ok nameA :=
  c9_insert_id_shape encRt draw0 1 5 [] nameA [⟨nameA, true, [5]⟩] (by decide)

/-! ### C4: read-after-write -/

/-- C4: if the payload round-trips through the serialization collaborator
and `insert_one` succeeds returning `i`, then `get_one i` on the resulting
collection succeeds and returns an item with the same payload. -/
theorem c4_read_after_write {T : Type} (dec : List Nat → Option T)
    (enc : T → List Nat) (draw : Nat → Fin 16) (fuel : Nat) (P : T)
    (dir : Dir) (i : Id) (dir2 : Dir)
    (hrt : dec (enc P) = some P)
    (h : insert_one enc draw fuel P dir = some (.ok (i, dir2))) :
    get_one dec i dir2 = .ok ⟨i, P⟩ := by
  obtain ⟨⟨m, hm⟩, hfresh, hdir⟩ := insert_one_spec enc draw fuel P dir i dir2 h
  have hv : isValidUtf8 i = true := hm ▸ mkCandidate_isValidUtf8 draw m
  subst hdir
  rw [get_one, Id.to_str, if_pos hv]
  simp only [openFile_writeFile_fresh dir i (enc P) hfresh, hrt]

/-- C4 witness: insert the payload `7` into an empty collection and read
it back. -/
theorem c4_read_after_write_witness :
    get_one decNat nameA [⟨nameA, true, [7]⟩] = .ok ⟨nameA, 7⟩ :=
  c4_read_after_write decNat encRt draw0 1 7 [] nameA [⟨nameA, true, [7]⟩]
    (by decide) (by decide)

/-! ### find_many per-entry lemmas -/

theorem passEntry_iff (e : Entry) :
    passEntry e = true ↔
      isValidUtf8 e.name = true ∧ e.name.length = idSize ∧ e.openOk = true := by
  simp [passEntry, Bool.and_eq_true, beq_iff_eq, and_assoc]

theorem find_many_cons_nonunicode {T : Type} (dec : List Nat → Option T)
    (f : Item T → Bool) (e : Entry) (rest : Dir)
    (h : isValidUtf8 e.name = false) :
    find_many dec f (e :: rest) = .panicked := by
  rw [find_many, if_neg (by simp [h])]

theorem find_many_cons_badparse {T : Type} (dec : List Nat → Option T)
    (f : Item T → Bool) (e : Entry) (rest : Dir)
    (hv : isValidUtf8 e.name = true) (hl : e.name.length ≠ idSize) :
    find_many dec f (e :: rest) = .err .invalidId := by
  rw [find_many, if_pos hv]
  simp only [Id.from_str, if_neg hl]

theorem find_many_cons_badopen {T : Type} (dec : List Nat → Option T)
    (f : Item T → Bool) (e : Entry) (rest : Dir)
    (hv : isValidUtf8 e.name = true) (hl : e.name.length = idSize)
    (ho : e.openOk = false) :
    find_many dec f (e :: rest) = .err .ioError := by
  rw [find_many, if_pos hv]
  simp only [Id.from_str, if_pos hl, ho, Bool.false_eq_true, if_false]

theorem find_many_cons_skip {T : Type} (dec : List Nat → Option T)
    (f : Item T → Bool) (e : Entry) (rest : Dir)
    (hv : isValidUtf8 e.name = true) (hl : e.name.length = idSize)
    (ho : e.openOk = true) (hdec : dec e.content = none) :
    find_many dec f (e :: rest) = find_many dec f rest := by
  rw [find_many, if_pos hv]
  simp only [Id.from_str, if_pos hl, ho, if_true, hdec]

theorem find_many_cons_decoded {T : Type} (dec : List Nat → Option T)
    (f : Item T → Bool) (e : Entry) (rest : Dir) (v : T)
    (hv : isValidUtf8 e.name = true) (hl : e.name.length = idSize)
    (ho : e.openOk = true) (hdec : dec e.content = some v) :
    find_many dec f (e :: rest) =
      if f ⟨e.name, v⟩ then
        Outcome.map (fun l => ⟨e.name, v⟩ :: l) (find_many dec f rest)
      else find_many dec f rest := by
  rw [find_many, if_pos hv]
  simp only [Id.from_str, if_pos hl, ho, if_true, hdec]

theorem find_many_cons_err {T : Type} (dec : List Nat → Option T)
    (f : Item T → Bool) (e : Entry) (rest : Dir) (er : DbError)
    (hp : passEntry e = true) (h : find_many dec f rest = .err er) :
    find_many dec f (e :: rest) = .err er := by
  obtain ⟨hv, hl, ho⟩ := (passEntry_iff e).mp hp
  cases hdec : dec e.content with
  | none => rw [find_many_cons_skip dec f e rest hv hl ho hdec, h]
  | some v =>
    rw [find_many_cons_decoded dec f e rest v hv hl ho hdec, h]
    cases f ⟨e.name, v⟩ <;> simp [Outcome.map]

theorem find_many_cons_panicked {T : Type} (dec : List Nat → Option T)
    (f : Item T → Bool) (e : Entry) (rest : Dir)
    (hp : passEntry e = true) (h : find_many dec f rest = .panicked) :
    find_many dec f (e :: rest) = .panicked := by
  obtain ⟨hv, hl, ho⟩ := (passEntry_iff e).mp hp
  cases hdec : dec e.content with
  | none => rw [find_many_cons_skip dec f e rest hv hl ho hdec, h]
  | some v =>
    rw [find_many_cons_decoded dec f e rest v hv hl ho hdec, h]
    cases f ⟨e.name, v⟩ <;> simp [Outcome.map]

theorem find_many_cons_congr {T : Type} (dec : List Nat → Option T)
    (f : Item T → Bool) (a : Entry) (X Y : Dir)
    (h : find_many dec f X = find_many dec f Y) :
    find_many dec f (a :: X) = find_many dec f (a :: Y) := by
  by_cases hv : isValidUtf8 a.name
  · by_cases hl : a.name.length = idSize
    · cases ho : a.openOk with
      | false =>
        rw [find_many_cons_badopen dec f a X hv hl ho,
          find_many_cons_badopen dec f a Y hv hl ho]
      | true =>
        cases hdec : dec a.content with
        | none =>
          rw [find_many_cons_skip dec f a X hv hl ho hdec,
            find_many_cons_skip dec f a Y hv hl ho hdec, h]
        | some v =>
          rw [find_many_cons_decoded dec f a X v hv hl ho hdec,
            find_many_cons_decoded dec f a Y v hv hl ho hdec, h]
    · rw [find_many_cons_badparse dec f a X hv hl,
        find_many_cons_badparse dec f a Y hv hl]
  · rw [find_many_cons_nonunicode dec f a X (by simpa using hv),
      find_many_cons_nonunicode dec f a Y (by simpa using hv)]

theorem find_many_append_err {T : Type} (dec : List Nat → Option T)
    (f : Item T → Bool) (pre l : Dir) (er : DbError)
    (hp : ∀ a ∈ pre, passEntry a = true) (h : find_many dec f l = .err er) :
    find_many dec f (pre ++ l) = .err er := by
  induction pre with
  | nil => exact h
  | cons a pre ih =>
    rw [List.cons_append]
    exact find_many_cons_err dec f a (pre ++ l) er
      (hp a (List.mem_cons_self a pre))
      (ih (fun b hb => hp b (List.mem_cons_of_mem a hb)))

theorem find_many_append_panicked {T : Type} (dec : List Nat → Option T)
    (f : Item T → Bool) (pre l : Dir)
    (hp : ∀ a ∈ pre, passEntry a = true) (h : find_many dec f l = .panicked) :
    find_many dec f (pre ++ l) = .panicked := by
  induction pre with
  | nil => exact h
  | cons a pre ih =>
    rw [List.cons_append]
    exact find_many_cons_panicked dec f a (pre ++ l)
      (hp a (List.mem_cons_self a pre))
      (ih (fun b hb => hp b (List.mem_cons_of_mem a hb)))

/-! ### C2: per-entry failure policy of the read path -/

/-- C2 (amended): in `get_all`/`find_many`, a per-entry payload-decode
failure is skipped silently (the call behaves as if the entry were
absent), and an identifier-parse failure on any entry aborts the whole
call with `InvalidId` and no partial results; but a per-entry failure to
open the file is not skipped — it aborts the whole call with an IO
error. -/
theorem c2_read_failure_policy {T : Type} (dec : List Nat → Option T)
    (f : Item T → Bool) :
    (∀ (pre post : Dir) (e : Entry), isValidUtf8 e.name = true →
      e.name.length = idSize → e.openOk = true → dec e.content = none →
      find_many dec f (pre ++ e :: post) = find_many dec f (pre ++ post)) ∧
    (∀ (pre post : Dir) (e : Entry), (∀ a ∈ pre, passEntry a = true) →
      isValidUtf8 e.name = true → e.name.length ≠ idSize →
      find_many dec f (pre ++ e :: post) = .err .invalidId) ∧
    (∀ (pre post : Dir) (e : Entry), (∀ a ∈ pre, passEntry a = true) →
      isValidUtf8 e.name = true → e.name.length = idSize → e.openOk = false →
      find_many dec f (pre ++ e :: post) = .err .ioError) := by
  refine ⟨fun pre post e hv hl ho hdec => ?_, fun pre post e hp hv hl => ?_,
    fun pre post e hp hv hl ho => ?_⟩
  · induction pre with
    | nil => exact find_many_cons_skip dec f e post hv hl ho hdec
    | cons a pre ih => exact find_many_cons_congr dec f a _ _ ih
  · exact find_many_append_err dec f pre (e :: post) .invalidId hp
      (find_many_cons_badparse dec f e post hv hl)
  · exact find_many_append_err dec f pre (e :: post) .ioError hp
      (find_many_cons_badopen dec f e post hv hl ho)

/-- C2 witness: one skipped undecodable entry, one aborting bad-name
entry, one aborting unopenable entry. -/
theorem c2_read_failure_policy_witness :
    find_many decNat predTrue [⟨nameA, true, [5, 6]⟩, ⟨nameB, true, [7]⟩] =
        find_many decNat predTrue [⟨nameB, true, [7]⟩] ∧
      find_many decNat predTrue [⟨nameB, true, [7]⟩, ⟨name17, true, [5]⟩] =
        .err .invalidId ∧
      find_many decNat predTrue [⟨nameB, true, [7]⟩, ⟨nameA, false, [5]⟩] =
        .err .ioError :=
  ⟨(c2_read_failure_policy decNat predTrue).1 [] [⟨nameB, true, [7]⟩]
      ⟨nameA, true, [5, 6]⟩ (by decide) (by decide) (by decide) (by decide),
   (c2_read_failure_policy decNat predTrue).2.1 [⟨nameB, true, [7]⟩] []
      ⟨name17, true, [5]⟩ (by decide) (by decide) (by decide),
   (c2_read_failure_policy decNat predTrue).2.2 [⟨nameB, true, [7]⟩] []
      ⟨nameA, false, [5]⟩ (by decide) (by decide) (by decide) (by decide)⟩

/-! ### C7: filter correctness -/

theorem find_many_eq_filter_get_all {T : Type} (dec : List Nat → Option T)
    (f : Item T → Bool) (dir : Dir) :
    find_many dec f dir = Outcome.map (fun l => l.filter f) (get_all dec dir) := by
  induction dir with
  | nil => rfl
  | cons e rest ih =>
    unfold get_all at ih ⊢
    by_cases hv : isValidUtf8 e.name
    · by_cases hl : e.name.length = idSize
      · cases ho : e.openOk with
        | false =>
          rw [find_many_cons_badopen dec f e rest hv hl ho,
            find_many_cons_badopen dec (fun _ => true) e rest hv hl ho]
          rfl
        | true =>
          cases hdec : dec e.content with
          | none =>
            rw [find_many_cons_skip dec f e rest hv hl ho hdec,
              find_many_cons_skip dec (fun _ => true) e rest hv hl ho hdec, ih]
          | some v =>
            rw [find_many_cons_decoded dec f e rest v hv hl ho hdec,
              find_many_cons_decoded dec (fun _ => true) e rest v hv hl ho hdec]
            simp only [if_true]
            cases hrest : find_many dec (fun _ => true) rest with
            | ok l =>
              rw [hrest] at ih
              cases hf : f ⟨e.name, v⟩ with
              | true =>
                rw [if_pos rfl, ih]
                simp [Outcome.map, List.filter_cons, hf]
              | false =>
                rw [if_neg (by simp), ih]
                simp [Outcome.map, List.filter_cons, hf]
            | err er =>
              rw [hrest] at ih
              cases hf : f ⟨e.name, v⟩ <;> simp [hf, ih, Outcome.map]
            | panicked =>
              rw [hrest] at ih
              cases hf : f ⟨e.name, v⟩ <;> simp [hf, ih, Outcome.map]
      · rw [find_many_cons_badparse dec f e rest hv hl,
          find_many_cons_badparse dec (fun _ => true) e rest hv hl]
        rfl
    · rw [find_many_cons_nonunicode dec f e rest (by simpa using hv),
        find_many_cons_nonunicode dec (fun _ => true) e rest (by simpa using hv)]
      rfl

theorem find_many_eq_ok_iff {T : Type} (dec : List Nat → Option T)
    (f : Item T → Bool) :
    ∀ (dir : Dir) (l : List (Item T)),
      find_many dec f dir = .ok l ↔
        (∀ e ∈ dir, passEntry e = true) ∧
          l = (dir.filterMap (itemOf dec)).filter f := by
  intro dir
  induction dir with
  | nil =>
    intro l
    constructor
    · intro h
      rw [find_many] at h
      cases h
      exact ⟨by simp, rfl⟩
    · rintro ⟨-, rfl⟩
      rfl
  | cons e rest ih =>
    intro l
    by_cases hv : isValidUtf8 e.name
    · by_cases hl : e.name.length = idSize
      · cases ho : e.openOk with
        | false =>
          rw [find_many_cons_badopen dec f e rest hv hl ho]
          constructor
          · intro h; cases h
          · rintro ⟨hp, -⟩
            have := (passEntry_iff e).mp (hp e (List.mem_cons_self e rest))
            rw [ho] at this
            simp at this
        | true =>
          have hpe : passEntry e = true := (passEntry_iff e).mpr ⟨hv, hl, ho⟩
          cases hdec : dec e.content with
          | none =>
            rw [find_many_cons_skip dec f e rest hv hl ho hdec, ih l]
            simp only [List.filterMap_cons, itemOf, hdec, Option.map_none]
            constructor
            · rintro ⟨hp, rfl⟩
              exact ⟨fun a ha => (List.mem_cons.mp ha).elim
                (fun h2 => h2 ▸ hpe) (fun h2 => hp a h2), rfl⟩
            · rintro ⟨hp, rfl⟩
              exact ⟨fun a ha => hp a (List.mem_cons_of_mem e ha), rfl⟩
          | some v =>
            rw [find_many_cons_decoded dec f e rest v hv hl ho hdec]
            have hitem : itemOf dec e = some ⟨e.name, v⟩ := by
              simp [itemOf, hdec]
            cases hf : f ⟨e.name, v⟩ with
            | true =>
              rw [if_pos rfl]
              constructor
              · intro h
                cases hrest : find_many dec f rest with
                | ok l2 =>
                  rw [hrest] at h
                  cases h
                  obtain ⟨hp, hl2⟩ := (ih l2).mp hrest
                  refine ⟨fun a ha => (List.mem_cons.mp ha).elim
                    (fun h2 => h2 ▸ hpe) (fun h2 => hp a h2), ?_⟩
                  rw [List.filterMap_cons, hitem, List.filter_cons_of_pos hf, hl2]
                | err er => rw [hrest] at h; cases h
                | panicked => rw [hrest] at h; cases h
              · rintro ⟨hp, rfl⟩
                have hrest : find_many dec f rest =
                    .ok ((rest.filterMap (itemOf dec)).filter f) :=
                  (ih _).mpr ⟨fun a ha => hp a (List.mem_cons_of_mem e ha), rfl⟩
                rw [hrest]
                simp only [Outcome.map]
                rw [List.filterMap_cons, hitem, List.filter_cons_of_pos hf]
            | false =>
              rw [if_neg (by simp), ih l]
              rw [List.filterMap_cons, hitem, List.filter_cons_of_neg (by simp [hf])]
              constructor
              · rintro ⟨hp, rfl⟩
                exact ⟨fun a ha => (List.mem_cons.mp ha).elim
                  (fun h2 => h2 ▸ hpe) (fun h2 => hp a h2), rfl⟩
              · rintro ⟨hp, rfl⟩
                exact ⟨fun a ha => hp a (List.mem_cons_of_mem e ha), rfl⟩
      · rw [find_many_cons_badparse dec f e rest hv hl]
        constructor
        · intro h; cases h
        · rintro ⟨hp, -⟩
          have := (passEntry_iff e).mp (hp e (List.mem_cons_self e rest))
          exact absurd this.2.1 hl
    · rw [find_many_cons_nonunicode dec f e rest (by simpa using hv)]
      constructor
      · intro h; cases h
      · rintro ⟨hp, -⟩
        have := (passEntry_iff e).mp (hp e (List.mem_cons_self e rest))
        exact absurd this.1 hv

/-- C7: `find_many pred` returns exactly the items of `get_all` that
satisfy `pred`; `get_all` is `find_many` with the always-true predicate;
and on success the result is enumeration-order independent as a set: a
permutation of the directory yields a permutation of the result. -/
theorem c7_filter_correctness {T : Type} (dec : List Nat → Option T)
    (f : Item T → Bool) (dir : Dir) :
    find_many dec f dir = Outcome.map (fun l => l.filter f) (get_all dec dir) ∧
      get_all dec dir = find_many dec (fun _ => true) dir ∧
      ∀ (dir2 : Dir) (l l2 : List (Item T)), dir.Perm dir2 →
        find_many dec f dir = .ok l → find_many dec f dir2 = .ok l2 →
        l.Perm l2 := by
  refine ⟨find_many_eq_filter_get_all dec f dir, rfl,
    fun dir2 l l2 hperm h1 h2 => ?_⟩
  obtain ⟨-, rfl⟩ := (find_many_eq_ok_iff dec f dir l).mp h1
  obtain ⟨-, rfl⟩ := (find_many_eq_ok_iff dec f dir2 l2).mp h2
  exact (hperm.filterMap (itemOf dec)).filter f

/-- C7 witness: a two-document collection and its reversal. -/
theorem c7_filter_correctness_witness :
    find_many decNat predTrue [⟨nameA, true, [5]⟩, ⟨nameB, true, [7]⟩] =
        Outcome.map (fun l => l.filter predTrue)
          (get_all decNat [⟨nameA, true, [5]⟩, ⟨nameB, true, [7]⟩]) ∧
      ([(⟨nameA, 5⟩ : Item Nat), ⟨nameB, 7⟩]).Perm [⟨nameB, 7⟩, ⟨nameA, 5⟩] :=
  ⟨(c7_filter_correctness decNat predTrue
      [⟨nameA, true, [5]⟩, ⟨nameB, true, [7]⟩]).1,
   (c7_filter_correctness decNat predTrue
      [⟨nameA, true, [5]⟩, ⟨nameB, true, [7]⟩]).2.2
      [⟨nameB, true, [7]⟩, ⟨nameA, true, [5]⟩] _ _
      (by decide) (by decide) (by decide)⟩

/-! ### update_many per-entry lemmas -/

theorem update_many_cons_nonunicode {T : Type} (dec : List Nat → Option T)
    (enc : T → List Nat) (f : Item T → Bool) (u : Item T → Item T)
    (e : Entry) (rest : Dir) (h : isValidUtf8 e.name = false) :
    update_many dec enc f u (e :: rest) = (.panicked, e :: rest) := by
  rw [update_many, if_neg (by simp [h])]

theorem update_many_cons_badparse {T : Type} (dec : List Nat → Option T)
    (enc : T → List Nat) (f : Item T → Bool) (u : Item T → Item T)
    (e : Entry) (rest : Dir)
    (hv : isValidUtf8 e.name = true) (hl : e.name.length ≠ idSize) :
    update_many dec enc f u (e :: rest) = (.err .invalidId, e :: rest) := by
  rw [update_many, if_pos hv]
  simp only [Id.from_str, if_neg hl]

theorem update_many_cons_badopen {T : Type} (dec : List Nat → Option T)
    (enc : T → List Nat) (f : Item T → Bool) (u : Item T → Item T)
    (e : Entry) (rest : Dir)
    (hv : isValidUtf8 e.name = true) (hl : e.name.length = idSize)
    (ho : e.openOk = false) :
    update_many dec enc f u (e :: rest) = (.err .ioError, e :: rest) := by
  rw [update_many, if_pos hv]
  simp only [Id.from_str, if_pos hl, ho, Bool.false_eq_true, if_false]

theorem update_many_cons_baddecode {T : Type} (dec : List Nat → Option T)
    (enc : T → List Nat) (f : Item T → Bool) (u : Item T → Item T)
    (e : Entry) (rest : Dir)
    (hv : isValidUtf8 e.name = true) (hl : e.name.length = idSize)
    (ho : e.openOk = true) (hdec : dec e.content = none) :
    update_many dec enc f u (e :: rest) = (.err .jsonError, e :: rest) := by
  rw [update_many, if_pos hv]
  simp only [Id.from_str, if_pos hl, ho, if_true, hdec]

theorem update_many_cons_step {T : Type} (dec : List Nat → Option T)
    (enc : T → List Nat) (f : Item T → Bool) (u : Item T → Item T)
    (e : Entry) (rest : Dir) (v : T)
    (hv : isValidUtf8 e.name = true) (hl : e.name.length = idSize)
    (ho : e.openOk = true) (hdec : dec e.content = some v) :
    update_many dec enc f u (e :: rest) =
      ((update_many dec enc f u rest).1,
        updStep dec enc f u e :: (update_many dec enc f u rest).2) := by
  rw [update_many, if_pos hv]
  simp only [Id.from_str, if_pos hl, ho, if_true, hdec, updStep]

/-! ### C1: update_many abort policy -/

/-- C1 (amended): an identifier-parse or payload-decode failure makes
`update_many` abort with an error, leaving the failing entry and every
entry after it untouched; but entries enumerated *before* the failing one
have already been processed — each matching entry among them is already
rewritten, with no rollback.  Zero mutations are applied exactly when no
earlier entry matched the predicate (in particular when the failing entry
comes first). -/
theorem c1_update_many_abort_policy {T : Type} (dec : List Nat → Option T)
    (enc : T → List Nat) (f : Item T → Bool) (u : Item T → Item T)
    (pre : Dir) (bad : Entry) (rest : Dir)
    (hpre : ∀ a ∈ pre, passEntry a = true ∧ decodes dec a = true)
    (hv : isValidUtf8 bad.name = true)
    (hbad : bad.name.length ≠ idSize ∨
      (bad.name.length = idSize ∧ bad.openOk = true ∧ dec bad.content = none)) :
    ((update_many dec enc f u (pre ++ bad :: rest)).1 = .err .invalidId ∨
      (update_many dec enc f u (pre ++ bad :: rest)).1 = .err .jsonError) ∧
    (update_many dec enc f u (pre ++ bad :: rest)).2 =
      pre.map (updStep dec enc f u) ++ bad :: rest ∧
    ((∀ a ∈ pre, matchesEntry dec f a = false) →
      (update_many dec enc f u (pre ++ bad :: rest)).2 = pre ++ bad :: rest) := by
  have hbase : update_many dec enc f u (bad :: rest) =
      (.err .invalidId, bad :: rest) ∨
      update_many dec enc f u (bad :: rest) = (.err .jsonError, bad :: rest) := by
    rcases hbad with hl | ⟨hl, ho, hdec⟩
    · exact Or.inl (update_many_cons_badparse dec enc f u bad rest hv hl)
    · exact Or.inr (update_many_cons_baddecode dec enc f u bad rest hv hl ho hdec)
  have main : ((update_many dec enc f u (pre ++ bad :: rest)).1 = .err .invalidId ∨
      (update_many dec enc f u (pre ++ bad :: rest)).1 = .err .jsonError) ∧
      (update_many dec enc f u (pre ++ bad :: rest)).2 =
        pre.map (updStep dec enc f u) ++ bad :: rest := by
    induction pre with
    | nil =>
      rcases hbase with h | h <;>
        simp [h]
    | cons a pre ih =>
      obtain ⟨hpa, hda⟩ := hpre a (List.mem_cons_self a pre)
      obtain ⟨hva, hla, hoa⟩ := (passEntry_iff a).mp hpa
      obtain ⟨v, hdeca⟩ := Option.isSome_iff_exists.mp (by simpa [decodes] using hda)
      have ih2 := ih (fun b hb => hpre b (List.mem_cons_of_mem a hb))
      rw [List.cons_append,
        update_many_cons_step dec enc f u a (pre ++ bad :: rest) v hva hla hoa hdeca]
      exact ⟨ih2.1, by rw [List.map_cons, List.cons_append, ih2.2]⟩
  refine ⟨main.1, main.2, fun hnm => ?_⟩
  rw [main.2]
  have hid : ∀ a ∈ pre, updStep dec enc f u a = a := by
    intro a ha
    have hm := hnm a ha
    rw [updStep]
    cases hdeca : dec a.content with
    | none => rfl
    | some v =>
      have hfv : f ⟨a.name, v⟩ = false := by
        unfold matchesEntry at hm
        rw [hdeca] at hm
        exact hm
      simp only [hfv, Bool.false_eq_true, if_false]
  have hmap : ∀ (l : Dir), (∀ a ∈ l, updStep dec enc f u a = a) →
      l.map (updStep dec enc f u) = l := by
    intro l hl
    induction l with
    | nil => rfl
    | cons a t iht =>
      rw [List.map_cons, hl a (List.mem_cons_self a t),
        iht (fun b hb => hl b (List.mem_cons_of_mem a hb))]
  rw [hmap pre hid]

/-- C1 witness: a matching valid entry followed by an undecodable one. -/
theorem c1_update_many_abort_policy_witness :
    ((update_many decNat encRt predTrue mutIncr
        [⟨nameA, true, [5]⟩, ⟨nameB, true, []⟩]).1 = .err .invalidId ∨
      (update_many decNat encRt predTrue mutIncr
        [⟨nameA, true, [5]⟩, ⟨nameB, true, []⟩]).1 = .err .jsonError) ∧
    (update_many decNat encRt predTrue mutIncr
        [⟨nameA, true, [5]⟩, ⟨nameB, true, []⟩]).2 =
      [⟨nameA, true, [5]⟩].map (updStep decNat encRt predTrue mutIncr) ++
        ⟨nameB, true, []⟩ :: [] ∧
    ((∀ a ∈ [(⟨nameA, true, [5]⟩ : Entry)], matchesEntry decNat predTrue a = false) →
      (update_many decNat encRt predTrue mutIncr
        [⟨nameA, true, [5]⟩, ⟨nameB, true, []⟩]).2 =
        [⟨nameA, true, [5]⟩] ++ ⟨nameB, true, []⟩ :: []) :=
  c1_update_many_abort_policy decNat encRt predTrue mutIncr
    [⟨nameA, true, [5]⟩] ⟨nameB, true, []⟩ []
    (by decide) (by decide) (by decide)

/-! ### C10: non-Unicode file names -/

/-- C10 (amended): if the enumeration reaches an entry whose file name is
not valid Unicode — that is, if every earlier entry passes the per-entry
checks that would otherwise abort the call — then `get_all`, `find_many`
and `update_many` panic instead of returning an error value.  (If an
earlier entry aborts first, the call returns that error instead.) -/
theorem c10_nonunicode_name_panics {T : Type} (dec : List Nat → Option T)
    (enc : T → List Nat) (f : Item T → Bool) (u : Item T → Item T)
    (pre : Dir) (bad : Entry) (rest : Dir)
    (hbad : isValidUtf8 bad.name = false) :
    ((∀ a ∈ pre, passEntry a = true) →
      find_many dec f (pre ++ bad :: rest) = .panicked ∧
      get_all (T := T) dec (pre ++ bad :: rest) = .panicked) ∧
    ((∀ a ∈ pre, passEntry a = true ∧ decodes dec a = true) →
      (update_many dec enc f u (pre ++ bad :: rest)).1 = .panicked) := by
  constructor
  · intro hp
    exact ⟨find_many_append_panicked dec f pre (bad :: rest) hp
        (find_many_cons_nonunicode dec f bad rest hbad),
      find_many_append_panicked dec (fun _ => true) pre (bad :: rest) hp
        (find_many_cons_nonunicode dec (fun _ => true) bad rest hbad)⟩
  · induction pre with
    | nil =>
      intro _
      rw [List.nil_append,
        update_many_cons_nonunicode dec enc f u bad rest hbad]
    | cons a pre ih =>
      intro hp
      obtain ⟨hpa, hda⟩ := hp a (List.mem_cons_self a pre)
      obtain ⟨hva, hla, hoa⟩ := (passEntry_iff a).mp hpa
      obtain ⟨v, hdeca⟩ := Option.isSome_iff_exists.mp
        (by simpa [decodes] using hda)
      rw [List.cons_append, update_many_cons_step dec enc f u a
        (pre ++ bad :: rest) v hva hla hoa hdeca]
      exact ih (fun b hb => hp b (List.mem_cons_of_mem a hb))

/-- C10 witness: one clean entry followed by a non-Unicode-named one. -/
theorem c10_nonunicode_name_panics_witness :
    (find_many decNat predTrue [⟨nameA, true, [5]⟩, ⟨nameBin, true, []⟩] =
        .panicked ∧
      get_all decNat [⟨nameA, true, [5]⟩, ⟨nameBin, true, []⟩] =
        (.panicked : Outcome (List (Item Nat)))) ∧
    (update_many decNat encRt predTrue mutIncr
        [⟨nameA, true, [5]⟩, ⟨nameBin, true, []⟩]).1 = .panicked :=
  ⟨(c10_nonunicode_name_panics decNat encRt predTrue mutIncr
      [⟨nameA, true, [5]⟩] ⟨nameBin, true, []⟩ [] (by decide)).1 (by decide),
   (c10_nonunicode_name_panics decNat encRt predTrue mutIncr
      [⟨nameA, true, [5]⟩] ⟨nameBin, true, []⟩ [] (by decide)).2 (by decide)⟩

end Ipjdb
